import Mathlib

/-!
Verification of the memory subsystem of heimdall-rs
(`src/common/src/ether/evm/core/memory.rs`).

The Rust code is shallowly embedded:

* `Range<usize>` becomes the structure `RangeN` with `Nat` fields; the Rust
  field `end` is a Lean keyword, so it is named `stop` here.
* `ByteTracker(pub HashMap<Range<usize>, WrappedOpcode>)` becomes an
  association list with unique keys; `HashMap` iteration order is
  unspecified in Rust, and every theorem below either uses maps of at most
  one colliding entry or is insensitive to the order, so a fixed list order
  is a faithful model.  The opcode type `WrappedOpcode` is opaque to this
  module (it is only cloned, stored and returned), so it is a type
  parameter `α`.
* `usize`/`u128` arithmetic is modelled with `Nat`.  All offsets and sizes
  flowing into `Memory::store`/`Memory::read` are clamped to 65536, so no
  machine-width overflow is reachable there; the single place where
  unsigned wrap-around matters — the `size - 1` underflow in
  `ByteTracker::write` — is modelled explicitly by an `Option` result.
* Functions that can panic return `Option`: `none` models a panic
  (`expect`, `todo!()`, arithmetic underflow, out-of-bounds `splice`);
  `some x` models a normal return of `x`.
-/

set_option autoImplicit false

namespace HeimdallMemory

/-- Embedding of Rust `Range<usize>`: `start` and `stop` mirror the fields
`start` and `end` of the Rust struct (`end` is a Lean keyword). -/
structure RangeN where
  start : Nat
  stop : Nat
deriving DecidableEq

/-- Rust `Range::contains`: half-open membership `start ≤ x < end`. -/
def RangeN.contains (r : RangeN) (x : Nat) : Bool :=
  decide (r.start ≤ x ∧ x < r.stop)

/-- Embedding of `pub struct ByteTracker(pub HashMap<Range<usize>, WrappedOpcode>)`.
The hash map is modelled as an association list with unique keys. -/
structure ByteTracker (α : Type) where
  entries : List (RangeN × α)
deriving DecidableEq

namespace ByteTracker

variable {α : Type}

/-- `ByteTracker::new`. -/
def new (α : Type) : ByteTracker α := ⟨[]⟩

/-- `HashMap::get` on the underlying map (by key, field 0 of the struct). -/
def get (t : ByteTracker α) (k : RangeN) : Option α :=
  (t.entries.find? fun p => decide (p.1 = k)).map Prod.snd

/-- `HashMap::remove` on the underlying map. -/
def remove (t : ByteTracker α) (k : RangeN) : ByteTracker α :=
  ⟨t.entries.filter fun p => decide (p.1 ≠ k)⟩

/-- `HashMap::insert` on the underlying map: replaces the value if the key
is present, otherwise adds the binding.  (Position in the list is
irrelevant: Rust `HashMap` iteration order is unspecified.) -/
def insert (t : ByteTracker α) (k : RangeN) (v : α) : ByteTracker α :=
  ⟨(k, v) :: (t.remove k).entries⟩

/-- `ByteTracker::find_range`: `self.0.keys().find(|range| range.contains(&offset))`. -/
def find_range (t : ByteTracker α) (offset : Nat) : Option RangeN :=
  (t.entries.map Prod.fst).find? fun r => r.contains offset

/-- `ByteTracker::get_by_offset`:
`self.0.get(self.find_range(offset).expect("ByteTracker::have_range is broken")).cloned()`.
The outer `Option` models panicking: the result is `none` exactly when the
`expect` call panics because `find_range` returned `None`. -/
def get_by_offset (t : ByteTracker α) (offset : Nat) : Option (Option α) :=
  match t.find_range offset with
  | none => none
  | some r => some (t.get r)

/-- `ByteTracker::range_collides`:
`incumbent.start <= incoming.start && incumbent.end >= incoming.start`. -/
def range_collides (incoming incumbent : RangeN) : Bool :=
  decide (incumbent.start ≤ incoming.start) && decide (incumbent.stop ≥ incoming.start)

/-- `ByteTracker::affected_ranges`: the keys whose range collides with
`range`, per `range_collides`. -/
def affected_ranges (t : ByteTracker α) (range : RangeN) : List RangeN :=
  (t.entries.map Prod.fst).filter fun incumbent => range_collides range incumbent

/-- The closure `range_needs_deletion` inside `ByteTracker::write`:
`incoming.start <= incumbent.start && incoming.end >= incumbent.end`. -/
def range_needs_deletion (incoming incumbent : RangeN) : Bool :=
  decide (incoming.start ≤ incumbent.start) && decide (incoming.stop ≥ incumbent.stop)

/-- The closure `range_needs_splitting` inside `ByteTracker::write`:
`incoming.start > incumbent.start && incoming.end < incumbent.end`. -/
def range_needs_splitting (incoming incumbent : RangeN) : Bool :=
  decide (incoming.start > incumbent.start) && decide (incoming.stop < incumbent.stop)

/-- `ByteTracker::write`.  The Rust function builds
`Range { start: offset, end: size - 1 }`; for `size = 0` the unsigned
subtraction `size - 1` underflows (a panic under Rust's checked overflow
semantics), modelled by returning `none`.  The `todo!()` in the shortening
branch and the `expect("")` after the `get` are panics, also `none`.
Within the split branch `range.start - 1` and `incumbent.stop - 1` cannot
underflow: the branch guard forces `range.start > incumbent.start ≥ 0` and
`incumbent.stop > range.stop ≥ 0`, so plain `Nat` subtraction is exact. -/
def write (t : ByteTracker α) (offset size : Nat) (opcode : α) : Option (ByteTracker α) :=
  if size = 0 then none
  else
    let range : RangeN := ⟨offset, size - 1⟩
    let incumbents : List RangeN := t.affected_ranges range
    if incumbents.isEmpty then
      some (t.insert range opcode)
    else do
      let t' ← incumbents.foldlM (fun acc incumbent =>
        if range_needs_deletion range incumbent then
          some (acc.remove incumbent)
        else if range_needs_splitting range incumbent then
          let left : RangeN := ⟨incumbent.start, range.start - 1⟩
          let right : RangeN := ⟨range.stop + 1, incumbent.stop - 1⟩
          match acc.get incumbent with
          | some old_opcode =>
              some (((acc.remove incumbent).insert left old_opcode).insert right old_opcode)
          | none => none
        else
          none) t
      some (t'.insert range opcode)

end ByteTracker

/-- Embedding of `pub struct Memory { memory: Vec<u8>, bytes: ByteTracker }`.
Bytes are modelled as `Nat` (their numeric value is only moved around). -/
structure Memory (α : Type) where
  memory : List Nat
  bytes : ByteTracker α
deriving DecidableEq

/-- `Vec::resize(n, 0)`: truncate to `n` elements or pad with zeros up to
`n` elements. -/
def listResize (l : List Nat) (n : Nat) : List Nat :=
  l.take n ++ List.replicate (n - l.length) 0

namespace Memory

variable {α : Type}

/-- `Memory::new`. -/
def new (α : Type) : Memory α := { memory := [], bytes := ByteTracker.new α }

/-- `Memory::size`: `self.memory.len()`. -/
def size (m : Memory α) : Nat := m.memory.length

/-- `Memory::extend`: round `offset + size` up to a multiple of 32 and,
when that exceeds the current length, append that many zero bytes
(`Vec::resize(len + byte_difference, 0)`). -/
def extend (m : Memory α) (offset sz : Nat) : Memory α :=
  let new_mem_size := (offset + sz + 31) / 32 * 32
  if new_mem_size > m.size then
    { m with memory := m.memory ++ List.replicate (new_mem_size - m.size) 0 }
  else m

/-- `Memory::store`.  Caps `offset` and `size` at 65536, truncates the
value to its first `size` bytes or left-pads it with zeros to `size`
bytes, extends the buffer, and splices the value over
`offset..offset+size`.  The slice `value[..size]` is guarded by the
branch (`value_len >= size`), so its only panic source is the `splice`
bounds check, modelled by the `Option`: `none` models the
`Vec::splice` out-of-bounds panic. -/
def store (m : Memory α) (offset sz : Nat) (value : List Nat) : Option (Memory α) :=
  let offset := min offset 65536
  let sz := min sz 65536
  let value_len := value.length
  let value : List Nat :=
    if value_len ≥ sz then value.take sz
    else List.replicate (sz - value_len) 0 ++ value
  let m := m.extend offset sz
  if offset + sz ≤ m.memory.length then
    some { m with memory := m.memory.take offset ++ value ++ m.memory.drop (offset + sz) }
  else none

/-- `Memory::store_with_opcode`: `store` then `ByteTracker::write`; `none`
models a panic in either step. -/
def store_with_opcode (m : Memory α) (offset sz : Nat) (value : List Nat) (opcode : α) :
    Option (Memory α) := do
  let m' ← m.store offset sz value
  let bytes' ← m'.bytes.write offset sz opcode
  pure { m' with bytes := bytes' }

/-- `Memory::read`.  Caps `size` and `offset` at 65536.  When
`offset + size` exceeds the buffer length it copies the in-bounds suffix
starting at `offset` (nothing when `offset` is past the end) and
zero-pads to `size` via `Vec::resize`; otherwise it returns the exact
slice.  Every slice taken is guarded by the surrounding branch, so the
function is total (reads never panic). -/
def read (m : Memory α) (offset sz : Nat) : List Nat :=
  let sz := min sz 65536
  let offset := min offset 65536
  if offset + sz > m.size then
    let value : List Nat := if offset ≤ m.size then m.memory.drop offset else []
    listResize value sz
  else
    (m.memory.drop offset).take sz

/-- `Memory::memory_cost`:
`memory_word_size = (size + 31) / 32`; cost `= word² / 512 + 3 * word`. -/
def memory_cost (m : Memory α) : Nat :=
  let memory_word_size := (m.size + 31) / 32
  memory_word_size ^ 2 / 512 + 3 * memory_word_size

/-- `Memory::expansion_cost`: cost of the hypothetical size
`(offset + size + 31) / 32` words minus the current cost, floored at 0. -/
def expansion_cost (m : Memory α) (offset sz : Nat) : Nat :=
  let new_memory_word_size := (offset + sz + 31) / 32
  let new_memory_cost := new_memory_word_size ^ 2 / 512 + 3 * new_memory_word_size
  if new_memory_cost < m.memory_cost then 0
  else new_memory_cost - m.memory_cost

/-- `Memory::origin`: delegates to `ByteTracker::get_by_offset`; the outer
`Option` models panicking, exactly as in `get_by_offset`. -/
def origin (m : Memory α) (byte : Nat) : Option (Option α) :=
  m.bytes.get_by_offset byte

end Memory

/-!  ## Helper lemmas  -/

theorem roundup32_ge (n : Nat) : n ≤ (n + 31) / 32 * 32 := by
  have h := Nat.div_add_mod (n + 31) 32
  have h2 : (n + 31) % 32 < 32 := Nat.mod_lt _ (by norm_num)
  omega

theorem roundup32_mod (n : Nat) : (n + 31) / 32 * 32 % 32 = 0 :=
  Nat.mul_mod_left _ _

theorem roundup32_lt (n : Nat) : (n + 31) / 32 * 32 < n + 32 := by
  have h := Nat.div_add_mod (n + 31) 32
  have h2 : (n + 31) % 32 < 32 := Nat.mod_lt _ (by norm_num)
  omega

theorem cost_word_mono {a b : Nat} (h : a ≤ b) :
    a ^ 2 / 512 + 3 * a ≤ b ^ 2 / 512 + 3 * b := by
  have h1 := Nat.div_le_div_right (c := 512) (Nat.pow_le_pow_left h 2)
  omega

theorem roundup32_div (n : Nat) : ((n + 31) / 32 * 32 + 31) / 32 = (n + 31) / 32 := by
  rw [Nat.mul_comm, Nat.mul_add_div (by norm_num : (0:Nat) < 32)]
  norm_num

theorem take_append_left {γ : Type} (l1 l2 : List γ) (n : Nat) (h : l1.length = n) :
    (l1 ++ l2).take n = l1 := by
  subst h; exact List.take_left l1 l2

theorem drop_append_left {γ : Type} (l1 l2 : List γ) (n : Nat) (h : l1.length = n) :
    (l1 ++ l2).drop n = l2 := by
  subst h; exact List.drop_left l1 l2

theorem listResize_length (l : List Nat) (n : Nat) : (listResize l n).length = n := by
  simp [listResize]; omega

theorem listResize_getD (l : List Nat) (n i : Nat) :
    (listResize l n).getD i 0 = if i < n ∧ i < l.length then l.getD i 0 else 0 := by
  simp only [listResize, List.getD_eq_getElem?_getD, List.getElem?_append,
    List.getElem?_take, List.getElem?_replicate, List.length_take]
  by_cases h1 : i < n ∧ i < l.length
  · rw [if_pos (Nat.lt_min.mpr ⟨h1.1, h1.2⟩), if_pos h1.1, if_pos h1]
  · rw [if_neg h1, if_neg (fun hc => h1 (Nat.lt_min.mp hc))]
    split <;> rfl

namespace Memory

variable {α : Type}

theorem extend_bytes (m : Memory α) (offset sz : Nat) :
    (m.extend offset sz).bytes = m.bytes := by
  simp only [extend]
  split <;> rfl

theorem extend_memory (m : Memory α) (offset sz : Nat) :
    (m.extend offset sz).memory
      = m.memory ++ List.replicate ((offset + sz + 31) / 32 * 32 - m.memory.length) 0 := by
  simp only [extend, size]
  split
  · rfl
  · next h =>
      rw [Nat.sub_eq_zero_of_le (by omega), List.replicate_zero, List.append_nil]

theorem extend_length (m : Memory α) (offset sz : Nat) :
    (m.extend offset sz).memory.length
      = max m.memory.length ((offset + sz + 31) / 32 * 32) := by
  rw [extend_memory]
  simp [List.length_append, List.length_replicate]
  omega

theorem store_eq_some (m : Memory α) (offset sz : Nat) (value : List Nat) :
    m.store offset sz value
      = some { memory :=
                 (m.extend (min offset 65536) (min sz 65536)).memory.take (min offset 65536)
                 ++ (if value.length ≥ min sz 65536 then value.take (min sz 65536)
                     else List.replicate (min sz 65536 - value.length) 0 ++ value)
                 ++ (m.extend (min offset 65536) (min sz 65536)).memory.drop
                      (min offset 65536 + min sz 65536),
               bytes := m.bytes } := by
  have hcond : min offset 65536 + min sz 65536
      ≤ (m.extend (min offset 65536) (min sz 65536)).memory.length := by
    rw [extend_length]
    have := roundup32_ge (min offset 65536 + min sz 65536)
    omega
  simp only [store]
  rw [if_pos hcond, extend_bytes]

theorem store_value_length (sz : Nat) (value : List Nat) :
    (if value.length ≥ sz then value.take sz
     else List.replicate (sz - value.length) 0 ++ value).length = sz := by
  split <;> simp <;> omega

theorem store_length (m : Memory α) (offset sz : Nat) (value : List Nat) :
    ∀ m', m.store offset sz value = some m' →
      m'.memory.length = (m.extend (min offset 65536) (min sz 65536)).memory.length := by
  intro m' h
  rw [store_eq_some] at h
  injection h with h
  subst h
  have hcond : min offset 65536 + min sz 65536
      ≤ (m.extend (min offset 65536) (min sz 65536)).memory.length := by
    rw [extend_length]
    have := roundup32_ge (min offset 65536 + min sz 65536)
    omega
  rw [List.length_append, List.length_append, List.length_take, List.length_drop,
    store_value_length,
    Nat.min_eq_left (le_trans (Nat.le_add_right _ (min sz 65536)) hcond)]
  omega

end Memory

/-!  ## Claims  -/

/-- C1: the claim states that the ranges stored in the Provenance Map are
pairwise disjoint at all times.  The code violates it: starting from an
empty tracker, `write(4, 6, A)` stores the range `[4,5]`, and
`write(0, 6, B)` fails to detect the collision (the asymmetric
`range_collides` requires `incumbent.start ≤ incoming.start`, but
`4 ≤ 0` is false), so the overlapping range `[0,5]` is inserted alongside
it: afterwards byte offset 4 is contained in two distinct stored ranges. -/
theorem C1_disjointness_broken :
    ByteTracker.write (⟨[]⟩ : ByteTracker Nat) 4 6 0 = some ⟨[(⟨4, 5⟩, 0)]⟩ ∧
    ByteTracker.write (⟨[(⟨4, 5⟩, 0)]⟩ : ByteTracker Nat) 0 6 1 =
      some ⟨[(⟨0, 5⟩, 1), (⟨4, 5⟩, 0)]⟩ ∧
    (⟨0, 5⟩ : RangeN) ≠ ⟨4, 5⟩ ∧
    RangeN.contains ⟨0, 5⟩ 4 = true ∧ RangeN.contains ⟨4, 5⟩ 4 = true := by
  decide

/-- C2: the claim states that `write(offset, size, token)` covers exactly
the bytes `[offset, offset+size-1]` and that `get_by_offset` then returns
the token at any byte of that span.  The code instead builds
`Range { start: offset, end: size - 1 }`, ignoring `offset` in the end
bound: `write(32, 32, tok)` on an empty tracker stores the inverted range
`{start := 32, stop := 31}`, and `get_by_offset(32)` — a byte the claim
says was covered — panics (`none` in this embedding) because `find_range`
finds no containing range. -/
theorem C2_write_range_ignores_offset :
    ByteTracker.write (⟨[]⟩ : ByteTracker Nat) 32 32 7 = some ⟨[(⟨32, 31⟩, 7)]⟩ ∧
    ByteTracker.get_by_offset (⟨[(⟨32, 31⟩, 7)]⟩ : ByteTracker Nat) 32 = none := by
  decide

/-- C3: the claim states that an incumbent collides with the incoming
range iff `incumbent.start ≤ incoming.end ∧ incumbent.end ≥ incoming.start`,
including an incumbent lying wholly to the right of `incoming.start`.
The code's `range_collides` instead tests
`incumbent.start ≤ incoming.start && incumbent.end >= incoming.start`:
for incoming `[0,5]` and incumbent `[4,5]` the claim's predicate holds
(`4 ≤ 5` and `5 ≥ 0`) yet the code reports no collision, and
`affected_ranges` misses the overlapping incumbent. -/
theorem C3_range_collides_asymmetric :
    ByteTracker.range_collides ⟨0, 5⟩ ⟨4, 5⟩ = false ∧
    ByteTracker.affected_ranges (⟨[(⟨4, 5⟩, 0)]⟩ : ByteTracker Nat) ⟨0, 5⟩ = [] ∧
    (⟨4, 5⟩ : RangeN).start ≤ (⟨0, 5⟩ : RangeN).stop ∧
    (⟨0, 5⟩ : RangeN).start ≤ (⟨4, 5⟩ : RangeN).stop := by
  decide

/-- C5: the claim states that `origin` / `get_by_offset` on a never-written
offset returns the explicit no-provenance result `None` rather than
failing.  The code instead calls
`.expect("ByteTracker::have_range is broken")` on the `find_range` result,
which panics whenever no stored range contains the offset: on a freshly
created `Memory` every query panics (`none` in this embedding) instead of
returning `some none`, the encoding of a normal `None` return. -/
theorem C5_fresh_query_panics (offset : Nat) :
    (Memory.new Nat).origin offset = none ∧
    ByteTracker.get_by_offset (ByteTracker.new Nat) offset = none := by
  constructor <;>
    simp [Memory.origin, Memory.new, ByteTracker.new, ByteTracker.get_by_offset,
      ByteTracker.find_range]

/-- C7 counterexample: the claim states that `extend` grows the buffer to
the smallest multiple of 32 greater than or equal to the highest offset
touched.  `extend(0, 33)` on an empty buffer touches bytes `0..=32`, so
the highest offset touched is `0 + 33 - 1 = 32`; the smallest multiple of
32 at or above 32 is 32 itself, yet the buffer is grown to 64 bytes (the
code rounds `offset + size` up, not the highest touched offset). -/
theorem C7_counterexample_extend :
    ((Memory.new Nat).extend 0 33).memory.length = 64 ∧
    (0 + 33 - 1 ≤ 32 ∧ 32 % 32 = 0 ∧ 32 < 64) := by
  decide

/-- C4: when the incoming range of a write is strictly contained in an
incumbent range (`incoming.start > incumbent.start` and
`incoming.end < incumbent.end`), the incumbent entry is removed and
replaced by exactly the two remainder ranges
`[incumbent.start, incoming.start-1]` and `[incoming.end+1, incumbent.end-1]`,
both mapped to the incumbent's original token.  Here the incoming range is
the one `write` builds, `⟨offset, sz-1⟩`; the hypotheses say it is a
well-formed range (`sz ≥ 1`, `offset ≤ sz-1`) strictly inside the
incumbent, and the resulting map holds exactly the incoming range with the
new token plus the two remainders with the old token, the incumbent gone. -/
theorem C4_write_split {α : Type} (incumbent : RangeN) (oldTok newTok : α) (offset sz : Nat)
    (h1 : incumbent.start < offset) (h2 : sz - 1 < incumbent.stop)
    (h3 : 1 ≤ sz) (h4 : offset ≤ sz - 1) :
    ByteTracker.write (⟨[(incumbent, oldTok)]⟩ : ByteTracker α) offset sz newTok =
      some ⟨[(⟨offset, sz - 1⟩, newTok),
             (⟨(sz - 1) + 1, incumbent.stop - 1⟩, oldTok),
             (⟨incumbent.start, offset - 1⟩, oldTok)]⟩ := by
  have hcol : ByteTracker.range_collides ⟨offset, sz - 1⟩ incumbent = true := by
    simp [ByteTracker.range_collides]
    omega
  have hdel : ByteTracker.range_needs_deletion ⟨offset, sz - 1⟩ incumbent = false := by
    simp [ByteTracker.range_needs_deletion]
    omega
  have hspl : ByteTracker.range_needs_splitting ⟨offset, sz - 1⟩ incumbent = true := by
    simp [ByteTracker.range_needs_splitting]
    omega
  have ha1 : incumbent.start ≠ sz - 1 + 1 := by omega
  have ha2 : incumbent.start ≠ offset := by omega
  have ha3 : sz - 1 + 1 ≠ offset := by omega
  have hsz : ¬ sz = 0 := by omega
  simp [ByteTracker.write, ByteTracker.affected_ranges, ByteTracker.insert,
    ByteTracker.remove, ByteTracker.get, hcol, hdel, hspl, hsz, ha1, ha2, ha3,
    List.foldlM, List.filter, List.find?]

/-- Witness for C4: writing `[2,5]` (offset 2, size 6) into a tracker
holding only `[0,10] ↦ 5` yields `[2,5] ↦ 9`, `[6,9] ↦ 5`, `[0,1] ↦ 5`. -/
theorem C4_write_split_witness :
    ByteTracker.write (⟨[(⟨0, 10⟩, 5)]⟩ : ByteTracker Nat) 2 6 9 =
      some ⟨[(⟨2, 5⟩, 9), (⟨6, 9⟩, 5), (⟨0, 1⟩, 5)]⟩ :=
  C4_write_split ⟨0, 10⟩ 5 9 2 6 (by decide) (by decide) (by decide) (by decide)

/-- C6: for every offset and byte string `value` with
`value.length = size` and `size ≤ 65536`, `store(offset, size, value)`
followed by `read(offset, size)` on the same memory returns exactly
`value`.  (`store` is modelled with an `Option` result whose `none` case
is the splice-bounds panic; the hypothesis `hst` names the successfully
stored memory, and `Memory.store_eq_some` proves the store always
succeeds.) -/
theorem C6_store_read_roundtrip {α : Type} (m : Memory α) (offset sz : Nat) (value : List Nat)
    (m' : Memory α) (hs : sz ≤ 65536) (hv : value.length = sz)
    (hst : m.store offset sz value = some m') :
    m'.read offset sz = value := by
  have hmin : min sz 65536 = sz := Nat.min_eq_left hs
  rw [Memory.store_eq_some] at hst
  injection hst with hst
  rw [hmin, if_pos (ge_of_eq hv), ← hv, List.take_length] at hst
  subst hst
  rw [hv]
  have hElen : min offset 65536 + sz ≤ (m.extend (min offset 65536) sz).memory.length := by
    rw [Memory.extend_length]
    have := roundup32_ge (min offset 65536 + sz)
    omega
  have htake : ((m.extend (min offset 65536) sz).memory.take (min offset 65536)).length
      = min offset 65536 := by
    rw [List.length_take]
    exact Nat.min_eq_left (by omega)
  have hmlen : ((m.extend (min offset 65536) sz).memory.take (min offset 65536)
        ++ value ++ (m.extend (min offset 65536) sz).memory.drop (min offset 65536 + sz)).length
      = (m.extend (min offset 65536) sz).memory.length := by
    rw [List.length_append, List.length_append, List.length_drop, htake, hv]
    omega
  simp only [Memory.read, Memory.size, hmin]
  rw [if_neg (by rw [hmlen]; omega)]
  rw [List.append_assoc, drop_append_left _ _ _ htake, take_append_left _ _ _ hv]

/-- Witness for C6: storing `[7, 8]` at offset 3 with size 2 in a fresh
memory yields a 32-byte buffer, and reading offset 3, size 2 returns
`[7, 8]`. -/
theorem C6_store_read_roundtrip_witness :
    Memory.read (⟨[0, 0, 0, 7, 8] ++ List.replicate 27 0, ⟨[]⟩⟩ : Memory Nat) 3 2 = [7, 8] :=
  C6_store_read_roundtrip (Memory.new Nat) 3 2 [7, 8]
    ⟨[0, 0, 0, 7, 8] ++ List.replicate 27 0, ⟨[]⟩⟩ (by decide) (by decide) (by decide)

/-- C7 (amended): `extend(offset, size)` grows the buffer, filling new
bytes with zero, to the smallest multiple of 32 greater than or equal to
`offset + size` (the number of bytes needed to hold the highest offset
touched — not, as the claim put it, to the highest touched offset itself);
it is a no-op when the buffer is already large enough, the length after a
growing extension is a multiple of 32, and the length never decreases
under `extend` or `store` (reads do not mutate in this embedding).
The conjuncts: bytes-tracker untouched; the new buffer is the old one
plus zero padding; the new length is `max` of old length and the rounded
bound `R = (offset+size+31)/32*32`; monotonicity; `R` is the smallest
multiple of 32 that is `≥ offset+size` (`R % 32 = 0`, `offset+size ≤ R`,
`R < offset+size+32`); any extension either ends on a multiple of 32 or
was a no-op returning the memory unchanged; and `store` never shrinks
the buffer. -/
theorem C7_extend_growth {α : Type} (m : Memory α) (offset sz : Nat) (value : List Nat) :
    (m.extend offset sz).bytes = m.bytes ∧
    (m.extend offset sz).memory
      = m.memory ++ List.replicate ((offset + sz + 31) / 32 * 32 - m.memory.length) 0 ∧
    (m.extend offset sz).memory.length
      = max m.memory.length ((offset + sz + 31) / 32 * 32) ∧
    m.memory.length ≤ (m.extend offset sz).memory.length ∧
    (offset + sz + 31) / 32 * 32 % 32 = 0 ∧
    offset + sz ≤ (offset + sz + 31) / 32 * 32 ∧
    (offset + sz + 31) / 32 * 32 < offset + sz + 32 ∧
    ((m.extend offset sz).memory.length % 32 = 0 ∨ m.extend offset sz = m) ∧
    m.memory.length ≤ ((m.store offset sz value).getD m).memory.length := by
  refine ⟨Memory.extend_bytes m offset sz, Memory.extend_memory m offset sz,
    Memory.extend_length m offset sz, ?_, roundup32_mod _, roundup32_ge _,
    roundup32_lt _, ?_, ?_⟩
  · rw [Memory.extend_length]
    exact le_max_left _ _
  · by_cases h : (offset + sz + 31) / 32 * 32 > m.memory.length
    · left
      rw [Memory.extend_length, Nat.max_eq_right (Nat.le_of_lt h)]
      exact roundup32_mod _
    · right
      simp only [Memory.extend, Memory.size]
      rw [if_neg h]
  · cases hst : m.store offset sz value with
    | none => simp
    | some m'' =>
        have hlen := Memory.store_length m offset sz value m'' hst
        simp only [Option.getD_some]
        rw [hlen, Memory.extend_length]
        exact le_max_left _ _

/-- C8: for every offset and size, `read(offset, size)` succeeds (it is a
total function: every slice in the code is branch-guarded) and returns
exactly `min size 65536` bytes — the capped size; byte `i` of the result
is the buffer byte at `min offset 65536 + i` when that is in bounds and
zero otherwise, i.e. the in-bounds portion is copied and the out-of-range
remainder is zero-filled.  `read` takes the memory immutably (`&self` in
the source), so the buffer is unchanged by construction. -/
theorem C8_read_clamped {α : Type} (m : Memory α) (offset sz i : Nat) :
    (m.read offset sz).length = min sz 65536 ∧
    (m.read offset sz).getD i 0
      = if min offset 65536 + i < m.memory.length ∧ i < min sz 65536
        then m.memory.getD (min offset 65536 + i) 0 else 0 := by
  simp only [Memory.read, Memory.size]
  by_cases hover : min offset 65536 + min sz 65536 > m.memory.length
  · rw [if_pos hover]
    by_cases hoin : min offset 65536 ≤ m.memory.length
    · rw [if_pos hoin]
      refine ⟨listResize_length _ _, ?_⟩
      rw [listResize_getD, List.length_drop]
      by_cases hc : min offset 65536 + i < m.memory.length ∧ i < min sz 65536
      · rw [if_pos (by omega), if_pos hc]
        simp [List.getD_eq_getElem?_getD, List.getElem?_drop]
      · rw [if_neg (by omega), if_neg hc]
    · rw [if_neg hoin]
      refine ⟨listResize_length _ _, ?_⟩
      rw [listResize_getD]
      simp only [List.length_nil]
      rw [if_neg (by omega), if_neg (by omega)]
  · rw [if_neg hover]
    constructor
    · rw [List.length_take, List.length_drop]
      exact Nat.min_eq_left (by omega)
    · by_cases hc : min offset 65536 + i < m.memory.length ∧ i < min sz 65536
      · rw [if_pos hc]
        simp [List.getD_eq_getElem?_getD, List.getElem?_take, hc.2, List.getElem?_drop]
      · rw [if_neg hc]
        have his : ¬ i < min sz 65536 := by omega
        simp [List.getD_eq_getElem?_getD, List.getElem?_take, his]

set_option maxRecDepth 16384 in
/-- C9 counterexample: the claim states that a buffer of exactly 1024
bytes has `memory_cost() = 101`.  Growing an empty memory to exactly 1024
bytes (32 words) gives `w = 32` and cost `⌊32²/512⌋ + 3·32 = 2 + 96 = 98`,
not 101 (101 is the cost of the 1056-byte buffer produced by the test that
stores *at* offset 1024). -/
theorem C9_counterexample_cost_1024 :
    ((Memory.new Nat).extend 0 1024).memory.length = 1024 ∧
    ((Memory.new Nat).extend 0 1024).memory_cost = 98 ∧
    ((Memory.new Nat).extend 0 1024).memory_cost ≠ 101 := by
  decide

/-- C9 (amended): `memory_cost()` equals `⌊w²/512⌋ + 3·w` where
`w = ⌈size/32⌉` (the second and third conjuncts pin `(len+31)/32·32 / 32`
as the exact ceiling: `len ≤ 32w < len + 32`); a buffer of exactly 32
bytes costs 3 and a buffer of exactly 1024 bytes costs 98 (the claim said
101, which is the cost of the 1056-byte buffer of the repository's own
test); and `expansion_cost(offset, size)` equals the memory cost the
buffer would have after `extend(offset, size)` minus the current cost,
floored at zero (never negative, even when the region is already
covered — then `extend` is a no-op and the difference is zero). -/
theorem C9_cost_formulas {α : Type} (m : Memory α) (offset sz : Nat) :
    m.memory_cost
      = ((m.memory.length + 31) / 32) ^ 2 / 512 + 3 * ((m.memory.length + 31) / 32) ∧
    m.memory.length ≤ (m.memory.length + 31) / 32 * 32 ∧
    (m.memory.length + 31) / 32 * 32 < m.memory.length + 32 ∧
    ((Memory.new Nat).extend 0 32).memory_cost = 3 ∧
    ((Memory.new Nat).extend 0 1024).memory_cost = 98 ∧
    (m.expansion_cost offset sz : Int)
      = max 0 (((m.extend offset sz).memory_cost : Int) - (m.memory_cost : Int)) := by
  have hcost_ext : (m.extend offset sz).memory_cost
      = if m.memory.length < (offset + sz + 31) / 32 * 32
        then ((offset + sz + 31) / 32) ^ 2 / 512 + 3 * ((offset + sz + 31) / 32)
        else m.memory_cost := by
    by_cases h : m.memory.length < (offset + sz + 31) / 32 * 32
    · rw [if_pos h]
      simp only [Memory.memory_cost, Memory.size]
      rw [Memory.extend_length, Nat.max_eq_right (Nat.le_of_lt h), roundup32_div]
    · rw [if_neg h]
      simp only [Memory.memory_cost, Memory.size]
      rw [Memory.extend_length, Nat.max_eq_left (Nat.le_of_not_lt h)]
  have h1024 : ((Memory.new Nat).extend 0 1024).memory.length = 1024 := by
    simp [Memory.extend_length, Memory.new, ByteTracker.new]
  refine ⟨rfl, roundup32_ge _, roundup32_lt _, by decide, ?_, ?_⟩
  · simp only [Memory.memory_cost, Memory.size, h1024]
    norm_num
  · rw [hcost_ext]
    by_cases hg : m.memory.length < (offset + sz + 31) / 32 * 32
    · rw [if_pos hg]
      simp only [Memory.expansion_cost]
      by_cases hc : ((offset + sz + 31) / 32) ^ 2 / 512 + 3 * ((offset + sz + 31) / 32)
          < m.memory_cost
      · rw [if_pos hc]
        have hle : ((((offset + sz + 31) / 32) ^ 2 / 512 + 3 * ((offset + sz + 31) / 32) : Nat) : Int)
            - (m.memory_cost : Int) ≤ 0 := by
          have := Int.ofNat_le.mpr (Nat.le_of_lt hc)
          omega
        rw [max_eq_left hle]
        rfl
      · rw [if_neg hc]
        have hge : (m.memory_cost : Int)
            ≤ ((((offset + sz + 31) / 32) ^ 2 / 512 + 3 * ((offset + sz + 31) / 32) : Nat) : Int) :=
          Int.ofNat_le.mpr (Nat.le_of_not_lt hc)
        rw [max_eq_right (by omega)]
        rw [Int.ofNat_sub (Nat.le_of_not_lt hc)]
    · rw [if_neg hg]
      simp only [Memory.expansion_cost]
      have hle : ((offset + sz + 31) / 32) ^ 2 / 512 + 3 * ((offset + sz + 31) / 32)
          ≤ m.memory_cost := by
        have h2 : (offset + sz + 31) / 32 * 32 ≤ m.memory.length := Nat.le_of_not_lt hg
        have h3 : (offset + sz + 31) / 32 ≤ (m.memory.length + 31) / 32 := by
          have h4 : (offset + sz + 31) / 32 * 32 / 32 ≤ (m.memory.length + 31) / 32 :=
            Nat.div_le_div_right (by omega)
          rwa [Nat.mul_div_cancel _ (by norm_num : (0:Nat) < 32)] at h4
        calc ((offset + sz + 31) / 32) ^ 2 / 512 + 3 * ((offset + sz + 31) / 32)
            ≤ ((m.memory.length + 31) / 32) ^ 2 / 512 + 3 * ((m.memory.length + 31) / 32) :=
              cost_word_mono h3
          _ = m.memory_cost := rfl
      have hz : max (0:Int) ((m.memory_cost : Int) - (m.memory_cost : Int)) = 0 := by
        simp
      rw [hz]
      by_cases hc : ((offset + sz + 31) / 32) ^ 2 / 512 + 3 * ((offset + sz + 31) / 32)
          < m.memory_cost
      · rw [if_pos hc]
        rfl
      · rw [if_neg hc]
        have hzero : ((offset + sz + 31) / 32) ^ 2 / 512 + 3 * ((offset + sz + 31) / 32)
            - m.memory_cost = 0 := by omega
        rw [hzero]
        rfl

/-- C10: for every memory state, offset, value and token, the tracked
write `store_with_opcode(offset, 0, value, token)` panics (`none` in this
embedding), because `ByteTracker::write` computes the range end as
`size - 1` on an unsigned integer, which underflows for `size = 0`;
the untracked `store(offset, 0, value)` with the same arguments returns
normally (`isSome`). -/
theorem C10_zero_size_write {α : Type} (m : Memory α) (offset : Nat) (value : List Nat)
    (token : α) :
    m.store_with_opcode offset 0 value token = none ∧
    (m.store offset 0 value).isSome = true := by
  constructor
  · simp [Memory.store_with_opcode, Memory.store_eq_some, ByteTracker.write]
  · rw [Memory.store_eq_some]
    rfl

end HeimdallMemory
